import Mathlib

set_option maxRecDepth 8000

/-!
Shallow embedding of the BaseAuraV2 registry (contracts/BaseAuraV2.sol) and
the client tier classifier (src/App.jsx, getAuraType).

Modelling conventions:
  - An address is a natural number; the EVM zero address is 0.  Where the
    source casts to uint160 we reduce modulo 2^160.
  - Contract storage is a record of total functions (Solidity mappings with
    their zero default) plus the scalar counter and image base.
  - A Solidity `require` failure or revert is an `Except.error`: the call
    returns no new state, which is exactly the revert semantics (no partial
    write survives).
  - keccak256 equality of tier-label strings is modelled as structural
    string equality (collision-free on the four constants).
  - `_safeMint` of OpenZeppelin ERC721 is modelled by its storage effect on
    `_owners` together with its two guards: the receiver must not be the
    zero address, and the token must not already have an owner.  The
    `onERC721Received` callback concerns contract receivers only and is
    outside the storage model.
  - Emitted events are appended to an `eventLog` field so that emission is
    provable.
-/

abbrev Address := Nat

/-- Revert reasons of the registry and of the inherited OpenZeppelin code.
`duplicateTarget` is the string "This address already has an Aura NFT",
`invalidTier` is "Invalid aura type", `notOwner` is "Not the token owner",
`noSuchToken` is "Token does not exist", `notMinted` is
"Address has no Aura NFT", `nonexistentToken` is ERC721NonexistentToken,
`invalidReceiver` and `invalidSender` are the ERC721 mint guards, and
`notContractOwner` is OwnableUnauthorizedAccount. -/
inductive Err where
  | duplicateTarget
  | invalidTier
  | notOwner
  | noSuchToken
  | notMinted
  | nonexistentToken
  | invalidReceiver
  | invalidSender
  | notContractOwner
deriving DecidableEq, Repr

/-- The two event kinds of BaseAuraV2: AuraMinted and AuraUpdated. -/
inductive Event where
  | auraMinted (minter : Address) (targetAddress : Address) (tokenId : Nat) (auraType : String)
  | auraUpdated (tokenId : Nat) (oldAura : String) (newAura : String)
deriving DecidableEq, Repr

/-- Contract storage of BaseAuraV2 plus the ERC721 `_owners` mapping and the
Ownable administrator, with an event log. -/
structure State where
  contractOwner : Address
  nextTokenId : Nat
  targetAddressToTokenId : Address → Nat
  targetAddressMinted : Address → Bool
  tokenToTargetAddress : Nat → Address
  tokenAuras : Nat → String
  baseImageURI : String
  owners : Nat → Option Address
  eventLog : List Event

/-- State after the constructor: all mappings at their Solidity zero
defaults, counter at zero, the deployer as Ownable administrator, and the
constructor argument as image base. -/
def initialState (baseImageURI : String) (deployer : Address) : State :=
  { contractOwner := deployer
    nextTokenId := 0
    targetAddressToTokenId := fun _ => 0
    targetAddressMinted := fun _ => false
    tokenToTargetAddress := fun _ => 0
    tokenAuras := fun _ => ""
    baseImageURI := baseImageURI
    owners := fun _ => none
    eventLog := [] }

def FIRE_WHALE : String := "fire"
def WAVE_RIDER : String := "water"
def TIDE_WATCHER : String := "tide"
def ROCK_HOLDER : String := "rock"

/-- Validity check `_isValidAura`: keccak comparison against the four
constants, modelled as string equality. -/
def _isValidAura (aura : String) : Bool :=
  aura = FIRE_WHALE || aura = WAVE_RIDER || aura = TIDE_WATCHER || aura = ROCK_HOLDER

/-- Final value of every storage slot written by the body of `mint` when
all four guards pass: the counter is incremented, the bidirectional
target-address maps and the minted flag and the aura label are written at
the fresh token id, ERC721 ownership of the fresh id goes to the caller,
and the AuraMinted event is appended. -/
def mintedState (s : State) (msgSender : Address) (targetAddress : Address)
    (auraType : String) : State :=
  { contractOwner := s.contractOwner
    nextTokenId := s.nextTokenId + 1
    targetAddressToTokenId := fun a =>
      if a = targetAddress then s.nextTokenId else s.targetAddressToTokenId a
    targetAddressMinted := fun a =>
      if a = targetAddress then true else s.targetAddressMinted a
    tokenToTargetAddress := fun t =>
      if t = s.nextTokenId then targetAddress else s.tokenToTargetAddress t
    tokenAuras := fun t =>
      if t = s.nextTokenId then auraType else s.tokenAuras t
    baseImageURI := s.baseImageURI
    owners := fun t =>
      if t = s.nextTokenId then some msgSender else s.owners t
    eventLog := s.eventLog ++
      [Event.auraMinted msgSender targetAddress s.nextTokenId auraType] }

/-- The `mint` function.  Guards in source order: the duplicate-target
require, the valid-aura require, then the two `_safeMint` guards (receiver
not zero, token not already owned; the latter can never fire because the
token id is fresh).  The result carries the assigned token id, which is
the pre-increment counter value; the source surfaces it to the caller in
the AuraMinted event, the Solidity function itself having no return
value. -/
def mint (s : State) (msgSender : Address) (targetAddress : Address) (auraType : String) :
    Except Err (State × Nat) :=
  if s.targetAddressMinted targetAddress then .error .duplicateTarget
  else if !(_isValidAura auraType) then .error .invalidTier
  else if msgSender = 0 then .error .invalidReceiver
  else if (s.owners s.nextTokenId).isSome then .error .invalidSender
  else .ok (mintedState s msgSender targetAddress auraType, s.nextTokenId)

/-- The `updateAura` function.  `ownerOf` reverts with
ERC721NonexistentToken when the token has no owner; then the
owner-equality require, the valid-aura require, the overwrite of the tier
label, and the AuraUpdated event carrying old and new label. -/
def updateAura (s : State) (msgSender : Address) (tokenId : Nat) (newAura : String) :
    Except Err State :=
  match s.owners tokenId with
  | none => .error .nonexistentToken
  | some owner =>
    if owner ≠ msgSender then .error .notOwner
    else if !(_isValidAura newAura) then .error .invalidTier
    else
      .ok { s with
              tokenAuras := fun t => if t = tokenId then newAura else s.tokenAuras t
              eventLog := s.eventLog ++
                [Event.auraUpdated tokenId (s.tokenAuras tokenId) newAura] }

/-- The `getTokenByTargetAddress` view. -/
def getTokenByTargetAddress (s : State) (targetAddress : Address) : Except Err Nat :=
  if s.targetAddressMinted targetAddress then .ok (s.targetAddressToTokenId targetAddress)
  else .error .notMinted

/-- The `getTargetAddress` view. -/
def getTargetAddress (s : State) (tokenId : Nat) : Except Err Address :=
  if tokenId < s.nextTokenId then .ok (s.tokenToTargetAddress tokenId)
  else .error .noSuchToken

/-- The `hasMinted` view. -/
def hasMinted (s : State) (targetAddress : Address) : Bool :=
  s.targetAddressMinted targetAddress

/-- The `getAura` view. -/
def getAura (s : State) (tokenId : Nat) : Except Err String :=
  if tokenId < s.nextTokenId then .ok (s.tokenAuras tokenId)
  else .error .noSuchToken

/-- The `setBaseImageURI` function, gated by the Ownable modifier. -/
def setBaseImageURI (s : State) (msgSender : Address) (newBaseURI : String) :
    Except Err State :=
  if msgSender = s.contractOwner then .ok { s with baseImageURI := newBaseURI }
  else .error .notContractOwner

/-- Human-readable name `_getAuraName`. -/
def _getAuraName (aura : String) : String :=
  if aura = FIRE_WHALE then "Fire Whale"
  else if aura = WAVE_RIDER then "Wave Rider"
  else if aura = TIDE_WATCHER then "Tide Watcher"
  else if aura = ROCK_HOLDER then "Rock Holder"
  else "Unknown"

/-- Description `_getAuraDescription`. -/
def _getAuraDescription (aura : String) : String :=
  if aura = FIRE_WHALE then "DeFi Power User - 500+ transactions on Base"
  else if aura = WAVE_RIDER then "Active Explorer - 100-499 transactions on Base"
  else if aura = TIDE_WATCHER then "Getting Started - 10-99 transactions on Base"
  else if aura = ROCK_HOLDER then "Diamond Hands HODLer - 1-9 transactions on Base"
  else "Base Aura NFT"

/-- Rarity rank `_getAuraTier`. -/
def _getAuraTier (aura : String) : String :=
  if aura = FIRE_WHALE then "Legendary"
  else if aura = WAVE_RIDER then "Rare"
  else if aura = TIDE_WATCHER then "Uncommon"
  else if aura = ROCK_HOLDER then "Common"
  else "Unknown"

/-- One lowercase hexadecimal digit, as in the OpenZeppelin Strings symbol
table "0123456789abcdef". -/
def hexDigit (n : Nat) : Char :=
  if n < 10 then Char.ofNat (48 + n) else Char.ofNat (87 + n)

/-- Fills `k` hexadecimal digits from the low end of `v`, mirroring the
OpenZeppelin toHexString loop (digit = value mod 16, value divided by 16,
buffer filled from the right). -/
def toHexChars : Nat → Nat → List Char
  | 0, _ => []
  | k + 1, v => toHexChars k (v / 16) ++ [hexDigit (v % 16)]

/-- `Strings.toHexString(value, length)`: the 0x tag followed by `2 *
length` zero-padded lowercase hexadecimal digits.  In the contract it is
applied to a uint160 cast with length 20, so the value always fits and the
insufficient-length revert of the library can never fire. -/
def toHexString (value : Nat) (length : Nat) : String :=
  "0x" ++ String.mk (toHexChars (2 * length) value)

def base64Symbols : List Char :=
  "ABCDEFGHIJKLMNOPQRSTUVWXYZabcdefghijklmnopqrstuvwxyz0123456789+/".toList

def base64Symbol (n : Nat) : Char := base64Symbols.getD n 'A'

/-- RFC 4648 base64 over a byte list, with padding, as in the OpenZeppelin
Base64 library. -/
def base64EncodeBytes : List Nat → List Char
  | [] => []
  | [a] => [base64Symbol (a / 4), base64Symbol (a % 4 * 16), '=', '=']
  | [a, b] => [base64Symbol (a / 4), base64Symbol (a % 4 * 16 + b / 16),
               base64Symbol (b % 16 * 4), '=']
  | a :: b :: c :: rest =>
      base64Symbol (a / 4) :: base64Symbol (a % 4 * 16 + b / 16) ::
      base64Symbol (b % 16 * 4 + c / 64) :: base64Symbol (c % 64) ::
      base64EncodeBytes rest

/-- `Base64.encode` on the bytes of a string; the JSON built by tokenURI is
ASCII, so code points coincide with UTF-8 bytes. -/
def base64Encode (s : String) : String :=
  String.mk (base64EncodeBytes (s.toList.map Char.toNat))

/-- The part of the tokenURI JSON before the image value: name (token id
and human-readable aura name) and description. -/
def tokenURI_jsonHead (s : State) (tokenId : Nat) : String :=
  "\x7b\"name\": \"Base Aura #" ++ toString tokenId ++ " - " ++
  _getAuraName (s.tokenAuras tokenId) ++ "\", \"description\": \"" ++
  _getAuraDescription (s.tokenAuras tokenId) ++ "\", \"image\": \""

/-- The part of the tokenURI JSON after the image value: the attributes
list with aura name, rarity rank, and the target address rendered through
the uint160 cast and toHexString with length 20. -/
def tokenURI_jsonTail (s : State) (tokenId : Nat) : String :=
  "\", \"attributes\": [\x7b\"trait_type\": \"Aura Type\", \"value\": \"" ++
  _getAuraName (s.tokenAuras tokenId) ++
  "\"\x7d, \x7b\"trait_type\": \"Tier\", \"value\": \"" ++
  _getAuraTier (s.tokenAuras tokenId) ++
  "\"\x7d, \x7b\"trait_type\": \"Target Address\", \"value\": \"" ++
  toHexString (s.tokenToTargetAddress tokenId % 2 ^ 160) 20 ++
  "\"\x7d]\x7d"

/-- The JSON document assembled by tokenURI before base64 encoding, in the
exact concatenation order of the source; the image value is the image base
followed by the stored aura type and ".png". -/
def tokenURI_json (s : State) (tokenId : Nat) : String :=
  tokenURI_jsonHead s tokenId ++
  (s.baseImageURI ++ s.tokenAuras tokenId ++ ".png") ++
  tokenURI_jsonTail s tokenId

/-- The `tokenURI` view: the existence require, then the data URI wrapping
the base64-encoded JSON. -/
def tokenURI (s : State) (tokenId : Nat) : Except Err String :=
  if tokenId < s.nextTokenId then
    .ok ("data:application/json;base64," ++ base64Encode (tokenURI_json s tokenId))
  else .error .noSuchToken

/-- The client tier classifier getAuraType of src/App.jsx: thresholds
checked from 500 down, null below one transaction. -/
def getAuraType (txCount : Nat) : Option String :=
  if 500 ≤ txCount then some "fire"
  else if 100 ≤ txCount then some "water"
  else if 10 ≤ txCount then some "tide"
  else if 1 ≤ txCount then some "rock"
  else none

/-! Transition system: a step is one successful mint or one successful
updateAura; a failed call reverts and leaves the state unchanged, so it is
covered by reflexivity. -/

def Step (s s' : State) : Prop :=
  (∃ caller target aura r, mint s caller target aura = .ok (s', r)) ∨
  (∃ caller tokenId aura, updateAura s caller tokenId aura = .ok s')

def Reachable (baseImageURI : String) (deployer : Address) (s : State) : Prop :=
  Relation.ReflTransGen Step (initialState baseImageURI deployer) s

/-- Registry invariant: the two target-address maps are mutual inverses on
minted addresses and live token ids, and a token has an ERC721 owner
exactly when its id is below the counter. -/
def RegInv (s : State) : Prop :=
  (∀ a, s.targetAddressMinted a = true →
      s.targetAddressToTokenId a < s.nextTokenId ∧
      s.tokenToTargetAddress (s.targetAddressToTokenId a) = a) ∧
  (∀ t, t < s.nextTokenId →
      s.targetAddressMinted (s.tokenToTargetAddress t) = true ∧
      s.targetAddressToTokenId (s.tokenToTargetAddress t) = t) ∧
  (∀ t, (s.owners t).isSome = true ↔ t < s.nextTokenId)

/-- One attempted external call, with its caller. -/
inductive Op where
  | mintOp (caller : Address) (target : Address) (aura : String)
  | updateOp (caller : Address) (tokenId : Nat) (aura : String)
  | setBaseOp (caller : Address) (uri : String)
deriving DecidableEq, Repr

/-- Effect of one attempted call: on success the new state, on revert the
old state unchanged. -/
def applyOp (s : State) : Op → State
  | .mintOp c T L =>
    match mint s c T L with
    | .ok p => p.1
    | .error _ => s
  | .updateOp c t L =>
    match updateAura s c t L with
    | .ok s' => s'
    | .error _ => s
  | .setBaseOp c u =>
    match setBaseImageURI s c u with
    | .ok s' => s'
    | .error _ => s

/-- Runs a sequence of attempted calls. -/
def runOps (s : State) (ops : List Op) : State := ops.foldl applyOp s

/-- Decidable success test. -/
def isOkB : Except Err State → Bool
  | .ok _ => true
  | .error _ => false

/-- The labels written to token `t` by the successful updateAura calls of a
trace, in order; the trace is interpreted from state `s`. -/
def tierWrites (s : State) (t : Nat) : List Op → List String
  | [] => []
  | op :: rest =>
    (match op with
     | .updateOp c t2 L => if t2 = t && isOkB (updateAura s c t2 L) then [L] else []
     | _ => []) ++ tierWrites (applyOp s op) t rest

/-- Deployment used by the concrete checks: image base "https://x/",
deployer address 1. -/
def exState0 : State := initialState "https://x/" 1

/-- One token minted by caller 2 for target address 1 with aura "fire". -/
def exState1 : State :=
  match mint exState0 2 1 "fire" with
  | .ok p => p.1
  | .error _ => exState0

/-- exState1 after the administrator repoints the image base. -/
def exState2 : State :=
  match setBaseImageURI exState1 1 "https://y/" with
  | .ok s2 => s2
  | .error _ => exState1

theorem mint_ok_iff (s : State) (c T : Address) (L : String) (s' : State) (r : Nat) :
    mint s c T L = .ok (s', r) ↔
      s.targetAddressMinted T = false ∧ _isValidAura L = true ∧ c ≠ 0 ∧
      s.owners s.nextTokenId = none ∧ s' = mintedState s c T L ∧ r = s.nextTokenId := by
  unfold mint
  split_ifs with h1 h2 h3 h4
  · simp [h1]
  · rw [Bool.not_eq_true'] at h2
    simp [h2]
  · simp [h3]
  · rw [Option.isSome_iff_exists] at h4
    obtain ⟨x, hx⟩ := h4
    simp [hx]
  · have h1a : s.targetAddressMinted T = false := by simpa using h1
    have h2a : _isValidAura L = true := by simpa using h2
    have h4a : s.owners s.nextTokenId = none := by simpa using h4
    simp only [Except.ok.injEq, Prod.mk.injEq]
    constructor
    · rintro ⟨hs1, hr⟩
      exact ⟨h1a, h2a, h3, h4a, hs1.symm, hr.symm⟩
    · rintro ⟨-, -, -, -, hs1, hr⟩
      exact ⟨hs1.symm, hr.symm⟩

theorem updateAura_ok_iff (s : State) (c : Address) (t : Nat) (L : String) (s' : State) :
    updateAura s c t L = .ok s' ↔
      s.owners t = some c ∧ _isValidAura L = true ∧
      s' = { s with
               tokenAuras := fun t2 => if t2 = t then L else s.tokenAuras t2
               eventLog := s.eventLog ++ [Event.auraUpdated t (s.tokenAuras t) L] } := by
  unfold updateAura
  cases h : s.owners t with
  | none => simp [h]
  | some o =>
    simp only [h]
    split_ifs with h1 h2
    · simp [h1]
    · rw [Ne, not_not] at h1
      rw [Bool.not_eq_true'] at h2
      simp [h1, h2]
    · rw [Ne, not_not] at h1
      have h2a : _isValidAura L = true := by simpa using h2
      subst h1
      simp only [Except.ok.injEq, Option.some.injEq]
      constructor
      · intro hs1
        exact ⟨trivial, h2a, hs1.symm⟩
      · rintro ⟨-, -, hs1⟩
        exact hs1.symm

theorem regInv_init (b : String) (d : Address) : RegInv (initialState b d) := by
  refine ⟨?_, ?_, ?_⟩ <;> intro x <;> simp [initialState]

theorem regInv_step (s s' : State) (hstep : Step s s') (hinv : RegInv s) : RegInv s' := by
  obtain ⟨inv1, inv2, inv3⟩ := hinv
  rcases hstep with ⟨c, T, L, r, hm⟩ | ⟨c, t, L, hu⟩
  · rw [mint_ok_iff] at hm
    obtain ⟨hT, -, -, -, hs1, -⟩ := hm
    subst hs1
    refine ⟨?_, ?_, ?_⟩
    · intro a ha
      by_cases haT : a = T
      · subst haT
        simp [mintedState]
      · simp only [mintedState, if_neg haT] at ha ⊢
        obtain ⟨hlt, heq⟩ := inv1 a ha
        have hne : s.targetAddressToTokenId a ≠ s.nextTokenId := Nat.ne_of_lt hlt
        simp only [if_neg hne]
        exact ⟨Nat.lt_succ_of_lt hlt, heq⟩
    · intro t ht
      by_cases htn : t = s.nextTokenId
      · subst htn
        simp [mintedState]
      · simp only [mintedState] at ht ⊢
        have ht2 : t < s.nextTokenId := by omega
        simp only [if_neg htn]
        obtain ⟨hmt, hid⟩ := inv2 t ht2
        have hTne : s.tokenToTargetAddress t ≠ T := by
          intro hEq
          rw [hEq] at hmt
          rw [hT] at hmt
          cases hmt
        simp only [if_neg hTne]
        have hidne : s.targetAddressToTokenId (s.tokenToTargetAddress t) ≠ s.nextTokenId := by
          omega
        exact ⟨hmt, hid⟩
    · intro t
      by_cases htn : t = s.nextTokenId
      · subst htn
        simp [mintedState]
      · simp only [mintedState, if_neg htn]
        rw [inv3 t]
        omega
  · rw [updateAura_ok_iff] at hu
    obtain ⟨-, -, hs1⟩ := hu
    subst hs1
    exact ⟨inv1, inv2, inv3⟩

theorem regInv_reachable (b : String) (d : Address) (s : State) (h : Reachable b d s) :
    RegInv s := by
  induction h with
  | refl => exact regInv_init b d
  | tail hab hbc ih => exact regInv_step _ _ hbc ih

theorem step_minted_persist (s s' : State) (hstep : Step s s') (a : Address)
    (ha : s.targetAddressMinted a = true) :
    s'.targetAddressMinted a = true ∧
    s'.targetAddressToTokenId a = s.targetAddressToTokenId a ∧
    s.nextTokenId ≤ s'.nextTokenId := by
  rcases hstep with ⟨c, T, L, r, hm⟩ | ⟨c, t, L, hu⟩
  · rw [mint_ok_iff] at hm
    obtain ⟨hT, -, -, -, hs1, -⟩ := hm
    subst hs1
    have haT : a ≠ T := by
      intro hEq
      rw [hEq, hT] at ha
      cases ha
    refine ⟨?_, ?_, ?_⟩
    · simp [mintedState, haT, ha]
    · simp [mintedState, haT]
    · simp [mintedState]
  · rw [updateAura_ok_iff] at hu
    obtain ⟨-, -, hs1⟩ := hu
    subst hs1
    exact ⟨ha, rfl, le_refl _⟩

theorem steps_minted_persist (s s' : State) (hsteps : Relation.ReflTransGen Step s s')
    (a : Address) (ha : s.targetAddressMinted a = true) :
    s'.targetAddressMinted a = true ∧
    s'.targetAddressToTokenId a = s.targetAddressToTokenId a := by
  induction hsteps with
  | refl => exact ⟨ha, rfl⟩
  | tail hab hbc ih =>
    obtain ⟨hm, hid⟩ := ih
    obtain ⟨hm2, hid2, -⟩ := step_minted_persist _ _ hbc a hm
    exact ⟨hm2, hid2.trans hid⟩

/-- C2: in every state reachable by mint and updateAura operations, the
target-to-id and id-to-target maps are mutual inverses on minted tokens,
hasMinted holds exactly when some live token carries the address, and once
an address is minted it stays minted with the same token id under any
further steps, getTokenByTargetAddress returning that same id. -/
theorem registry_bidirectional_invariant (b : String) (d : Address) (s s' : State)
    (hs : Reachable b d s) (hsteps : Relation.ReflTransGen Step s s') (a : Address) :
    ((hasMinted s a = true) ↔ ∃ t, t < s.nextTokenId ∧ s.tokenToTargetAddress t = a) ∧
    (hasMinted s a = true → s.tokenToTargetAddress (s.targetAddressToTokenId a) = a) ∧
    (∀ t, t < s.nextTokenId → s.targetAddressToTokenId (s.tokenToTargetAddress t) = t) ∧
    (hasMinted s a = true →
       hasMinted s' a = true ∧
       getTokenByTargetAddress s' a = getTokenByTargetAddress s a) := by
  obtain ⟨inv1, inv2, inv3⟩ := regInv_reachable b d s hs
  refine ⟨?_, ?_, ?_, ?_⟩
  · constructor
    · intro ha
      exact ⟨s.targetAddressToTokenId a, (inv1 a ha).1, (inv1 a ha).2⟩
    · rintro ⟨t, ht, rfl⟩
      exact (inv2 t ht).1
  · intro ha
    exact (inv1 a ha).2
  · intro t ht
    exact (inv2 t ht).2
  · intro ha
    obtain ⟨hm, hid⟩ := steps_minted_persist s s' hsteps a ha
    refine ⟨hm, ?_⟩
    simp only [hasMinted] at ha hm
    simp [getTokenByTargetAddress, hm, ha, hid]

theorem registry_bidirectional_invariant_witness :
    ((hasMinted exState1 1 = true) ↔
       ∃ t, t < exState1.nextTokenId ∧ exState1.tokenToTargetAddress t = 1) ∧
    (hasMinted exState1 1 = true →
       exState1.tokenToTargetAddress (exState1.targetAddressToTokenId 1) = 1) ∧
    (∀ t, t < exState1.nextTokenId →
       exState1.targetAddressToTokenId (exState1.tokenToTargetAddress t) = t) ∧
    (hasMinted exState1 1 = true →
       hasMinted exState1 1 = true ∧
       getTokenByTargetAddress exState1 1 = getTokenByTargetAddress exState1 1) :=
  registry_bidirectional_invariant "https://x/" 1 exState1 exState1
    (Relation.ReflTransGen.single (Or.inl ⟨2, 1, "fire", 0, rfl⟩))
    Relation.ReflTransGen.refl 1

/-- C1: in any reachable state, minting for an unminted target with a
label from the valid set, by a nonzero caller, succeeds: the assigned id
is the pre-increment counter value, the caller becomes the ERC721 owner,
both directions of the target map and the minted flag and the tier label
are written, the counter advances by one, and the AuraMinted notification
carrying caller, target, id and label is appended. -/
theorem mint_creates_token (b : String) (d : Address) (s : State) (caller T : Address)
    (L : String) (hreach : Reachable b d s)
    (hT : hasMinted s T = false)
    (hL : L = FIRE_WHALE ∨ L = WAVE_RIDER ∨ L = TIDE_WATCHER ∨ L = ROCK_HOLDER)
    (hc : caller ≠ 0) :
    ∃ s', mint s caller T L = .ok (s', s.nextTokenId) ∧
      s'.owners s.nextTokenId = some caller ∧
      s'.targetAddressToTokenId T = s.nextTokenId ∧
      s'.tokenToTargetAddress s.nextTokenId = T ∧
      s'.tokenAuras s.nextTokenId = L ∧
      hasMinted s' T = true ∧
      s'.nextTokenId = s.nextTokenId + 1 ∧
      s'.eventLog = s.eventLog ++ [Event.auraMinted caller T s.nextTokenId L] := by
  have hvalid : _isValidAura L = true := by
    rcases hL with h | h | h | h <;> simp [_isValidAura, h]
  have hown : s.owners s.nextTokenId = none := by
    obtain ⟨-, -, inv3⟩ := regInv_reachable b d s hreach
    have h2 := inv3 s.nextTokenId
    rcases hO : s.owners s.nextTokenId with _ | x
    · rfl
    · rw [hO] at h2
      simp at h2
  refine ⟨mintedState s caller T L, ?_, ?_, ?_, ?_, ?_, ?_, ?_, ?_⟩
  · rw [mint_ok_iff]
    exact ⟨by simpa [hasMinted] using hT, hvalid, hc, hown, rfl, rfl⟩
  · simp [mintedState]
  · simp [mintedState]
  · simp [mintedState]
  · simp [mintedState]
  · simp [mintedState, hasMinted]
  · rfl
  · rfl

theorem mint_creates_token_witness :
    ∃ s', mint exState0 2 1 "fire" = .ok (s', exState0.nextTokenId) ∧
      s'.owners exState0.nextTokenId = some 2 ∧
      s'.targetAddressToTokenId 1 = exState0.nextTokenId ∧
      s'.tokenToTargetAddress exState0.nextTokenId = 1 ∧
      s'.tokenAuras exState0.nextTokenId = "fire" ∧
      hasMinted s' 1 = true ∧
      s'.nextTokenId = exState0.nextTokenId + 1 ∧
      s'.eventLog = exState0.eventLog ++
        [Event.auraMinted 2 1 exState0.nextTokenId "fire"] :=
  mint_creates_token "https://x/" 1 exState0 2 1 "fire" Relation.ReflTransGen.refl
    rfl (Or.inl rfl) (by decide)

/-- C3: once a target address is minted, every further mint for it, by any
caller and with any label, reverts with the duplicate-target message, and
the attempted call leaves the state unchanged. -/
theorem mint_duplicate_rejected (s : State) (caller T : Address) (L : String)
    (h : hasMinted s T = true) :
    mint s caller T L = .error .duplicateTarget ∧
    applyOp s (.mintOp caller T L) = s := by
  simp only [hasMinted] at h
  have hm : mint s caller T L = .error .duplicateTarget := by
    unfold mint
    rw [if_pos h]
  exact ⟨hm, by simp [applyOp, hm]⟩

theorem mint_duplicate_rejected_witness :
    mint exState1 3 1 "water" = .error .duplicateTarget ∧
    applyOp exState1 (.mintOp 3 1 "water") = exState1 :=
  mint_duplicate_rejected exState1 3 1 "water" rfl

/-- C4: updateAura succeeds exactly when the caller owns the existing token
and the new label is in the valid set; a non-owner caller on an existing
token reverts with the not-owner message and the state is unchanged, an
owner with an invalid label reverts with the invalid-tier message and the
state is unchanged, a nonexistent token is rejected by the ownership
lookup itself; on success the tier label is overwritten with the new label
with no constraint relating old and new label, every other storage slot is
untouched, and the AuraUpdated notification carrying token id, old label
and new label is appended. -/
theorem updateAura_owner_gated (s : State) (caller : Address) (t : Nat) (L : String) :
    ((∃ s', updateAura s caller t L = .ok s') ↔
       (s.owners t = some caller ∧ _isValidAura L = true)) ∧
    (∀ o, s.owners t = some o → o ≠ caller →
       updateAura s caller t L = .error .notOwner ∧
       applyOp s (.updateOp caller t L) = s) ∧
    (s.owners t = some caller → _isValidAura L = false →
       updateAura s caller t L = .error .invalidTier ∧
       applyOp s (.updateOp caller t L) = s) ∧
    (s.owners t = none → updateAura s caller t L = .error .nonexistentToken) ∧
    (∀ s', updateAura s caller t L = .ok s' →
       s'.tokenAuras t = L ∧
       (∀ t2, t2 ≠ t → s'.tokenAuras t2 = s.tokenAuras t2) ∧
       s'.nextTokenId = s.nextTokenId ∧
       s'.tokenToTargetAddress = s.tokenToTargetAddress ∧
       s'.targetAddressToTokenId = s.targetAddressToTokenId ∧
       s'.targetAddressMinted = s.targetAddressMinted ∧
       s'.owners = s.owners ∧
       s'.baseImageURI = s.baseImageURI ∧
       s'.eventLog = s.eventLog ++ [Event.auraUpdated t (s.tokenAuras t) L]) := by
  refine ⟨?_, ?_, ?_, ?_, ?_⟩
  · constructor
    · rintro ⟨s', hs'⟩
      rw [updateAura_ok_iff] at hs'
      exact ⟨hs'.1, hs'.2.1⟩
    · rintro ⟨hown, hval⟩
      exact ⟨_, (updateAura_ok_iff s caller t L _).mpr ⟨hown, hval, rfl⟩⟩
  · intro o ho hne
    have herr : updateAura s caller t L = .error .notOwner := by
      simp only [updateAura, ho]
      rw [if_pos hne]
    exact ⟨herr, by simp [applyOp, herr]⟩
  · intro hown hval
    have herr : updateAura s caller t L = .error .invalidTier := by
      simp only [updateAura, hown]
      rw [if_neg (fun hcc => hcc rfl)]
      rw [if_pos (show (!_isValidAura L) = true by rw [hval]; rfl)]
    exact ⟨herr, by simp [applyOp, herr]⟩
  · intro hnone
    unfold updateAura
    rw [hnone]
  · intro s' hs'
    rw [updateAura_ok_iff] at hs'
    obtain ⟨-, -, hs1⟩ := hs'
    subst hs1
    refine ⟨by simp, ?_, rfl, rfl, rfl, rfl, rfl, rfl, rfl⟩
    intro t2 ht2
    simp [ht2]

theorem updateAura_owner_gated_witness :
    (updateAura exState1 3 0 "water" = .error .notOwner ∧
     applyOp exState1 (.updateOp 3 0 "water") = exState1) ∧
    (∃ s', updateAura exState1 2 0 "water" = .ok s') ∧
    updateAura exState0 2 0 "water" = .error .nonexistentToken :=
  ⟨(updateAura_owner_gated exState1 3 0 "water").2.1 2 rfl (by decide),
   (updateAura_owner_gated exState1 2 0 "water").1.mpr ⟨rfl, by decide⟩,
   (updateAura_owner_gated exState0 2 0 "water").2.2.2.1 rfl⟩

/-- C5: each of getTargetAddress, getAura and tokenURI reverts with the
no-such-token message exactly when the token id is at least the next-id
counter, and below the counter each succeeds as a pure lookup. -/
theorem lookup_existence (s : State) (t : Nat) :
    ((getTargetAddress s t = .error .noSuchToken) ↔ s.nextTokenId ≤ t) ∧
    ((getAura s t = .error .noSuchToken) ↔ s.nextTokenId ≤ t) ∧
    ((tokenURI s t = .error .noSuchToken) ↔ s.nextTokenId ≤ t) ∧
    (t < s.nextTokenId →
       getTargetAddress s t = .ok (s.tokenToTargetAddress t) ∧
       getAura s t = .ok (s.tokenAuras t) ∧
       tokenURI s t =
         .ok ("data:application/json;base64," ++ base64Encode (tokenURI_json s t))) := by
  refine ⟨?_, ?_, ?_, ?_⟩
  · unfold getTargetAddress
    split_ifs with h
    · simp
      omega
    · simp
      omega
  · unfold getAura
    split_ifs with h
    · simp
      omega
    · simp
      omega
  · unfold tokenURI
    split_ifs with h
    · simp
      omega
    · simp
      omega
  · intro h
    exact ⟨by simp [getTargetAddress, h], by simp [getAura, h], by simp [tokenURI, h]⟩

theorem lookup_existence_witness :
    (getTargetAddress exState1 0 = .ok (exState1.tokenToTargetAddress 0) ∧
     getAura exState1 0 = .ok (exState1.tokenAuras 0) ∧
     tokenURI exState1 0 =
       .ok ("data:application/json;base64," ++ base64Encode (tokenURI_json exState1 0))) ∧
    getAura exState1 5 = .error .noSuchToken :=
  ⟨(lookup_existence exState1 0).2.2.2 (by decide),
   ((lookup_existence exState1 5).2.1).mpr (by decide)⟩

theorem applyOp_next_mono (s : State) (op : Op) :
    s.nextTokenId ≤ (applyOp s op).nextTokenId := by
  cases op with
  | mintOp c T L =>
    simp only [applyOp]
    cases h : mint s c T L with
    | error e => exact le_refl _
    | ok p =>
      rcases p with ⟨s', r⟩
      rw [mint_ok_iff] at h
      obtain ⟨-, -, -, -, hs1, -⟩ := h
      subst hs1
      exact Nat.le_succ _
  | updateOp c t2 L =>
    simp only [applyOp]
    cases h : updateAura s c t2 L with
    | error e => exact le_refl _
    | ok s' =>
      rw [updateAura_ok_iff] at h
      obtain ⟨-, -, hs1⟩ := h
      subst hs1
      exact le_refl _
  | setBaseOp c u =>
    simp only [applyOp]
    cases h : setBaseImageURI s c u with
    | error e => exact le_refl _
    | ok s' =>
      unfold setBaseImageURI at h
      split_ifs at h with hc
      cases h
      exact le_refl _

theorem applyOp_target_of_lt (s : State) (op : Op) (t : Nat) (ht : t < s.nextTokenId) :
    (applyOp s op).tokenToTargetAddress t = s.tokenToTargetAddress t := by
  cases op with
  | mintOp c T L =>
    simp only [applyOp]
    cases h : mint s c T L with
    | error e => rfl
    | ok p =>
      rcases p with ⟨s', r⟩
      rw [mint_ok_iff] at h
      obtain ⟨-, -, -, -, hs1, -⟩ := h
      subst hs1
      simp only [mintedState]
      rw [if_neg (Nat.ne_of_lt ht)]
  | updateOp c t2 L =>
    simp only [applyOp]
    cases h : updateAura s c t2 L with
    | error e => rfl
    | ok s' =>
      rw [updateAura_ok_iff] at h
      obtain ⟨-, -, hs1⟩ := h
      subst hs1
      rfl
  | setBaseOp c u =>
    simp only [applyOp]
    cases h : setBaseImageURI s c u with
    | error e => rfl
    | ok s' =>
      unfold setBaseImageURI at h
      split_ifs at h with hc
      cases h
      rfl

theorem applyOp_aura_of_lt (s : State) (op : Op) (t : Nat) (ht : t < s.nextTokenId) :
    (applyOp s op).tokenAuras t =
      (match op with
       | .updateOp c t2 L =>
         if t2 = t && isOkB (updateAura s c t2 L) then L else s.tokenAuras t
       | _ => s.tokenAuras t) := by
  cases op with
  | mintOp c T L =>
    simp only [applyOp]
    cases h : mint s c T L with
    | error e => rfl
    | ok p =>
      rcases p with ⟨s', r⟩
      rw [mint_ok_iff] at h
      obtain ⟨-, -, -, -, hs1, -⟩ := h
      subst hs1
      simp only [mintedState]
      rw [if_neg (Nat.ne_of_lt ht)]
  | updateOp c t2 L =>
    simp only [applyOp]
    cases h : updateAura s c t2 L with
    | error e => simp [isOkB]
    | ok s' =>
      rw [updateAura_ok_iff] at h
      obtain ⟨-, -, hs1⟩ := h
      subst hs1
      by_cases h2 : t2 = t
      · subst h2
        simp [isOkB]
      · simp [isOkB, h2, Ne.symm h2]
  | setBaseOp c u =>
    simp only [applyOp]
    cases h : setBaseImageURI s c u with
    | error e => rfl
    | ok s' =>
      unfold setBaseImageURI at h
      split_ifs at h with hc
      cases h
      rfl

/-- C6: along any sequence of attempted calls, the target address of an
existing token never changes, and its tier label is the label of the most
recent successful updateAura on that token, or the stored label from its
mint if no updateAura on it succeeded. -/
theorem token_immutable_target_and_latest_tier (s : State) (t : Nat) (ops : List Op)
    (ht : t < s.nextTokenId) :
    (runOps s ops).tokenToTargetAddress t = s.tokenToTargetAddress t ∧
    (runOps s ops).tokenAuras t = (tierWrites s t ops).getLastD (s.tokenAuras t) := by
  induction ops generalizing s with
  | nil => exact ⟨rfl, rfl⟩
  | cons op rest ih =>
    have hnext : t < (applyOp s op).nextTokenId :=
      lt_of_lt_of_le ht (applyOp_next_mono s op)
    obtain ⟨ih1, ih2⟩ := ih (applyOp s op) hnext
    have hrun : runOps s (op :: rest) = runOps (applyOp s op) rest := by
      simp [runOps]
    constructor
    · rw [hrun, ih1, applyOp_target_of_lt s op t ht]
    · rw [hrun, ih2]
      have haura := applyOp_aura_of_lt s op t ht
      cases op with
      | mintOp c T L =>
        simp only at haura
        rw [haura]
        simp [tierWrites]
      | setBaseOp c u =>
        simp only at haura
        rw [haura]
        simp [tierWrites]
      | updateOp c t2 L =>
        simp only at haura
        by_cases hcond : (t2 = t && isOkB (updateAura s c t2 L)) = true
        · rw [if_pos hcond] at haura
          rw [haura]
          simp only [tierWrites, if_pos hcond]
          rw [List.singleton_append, List.getLastD_cons]
        · rw [if_neg hcond] at haura
          rw [haura]
          simp only [tierWrites, if_neg hcond]
          rw [List.nil_append]

theorem token_immutable_target_and_latest_tier_witness :
    (runOps exState1 [Op.updateOp 2 0 "water"]).tokenToTargetAddress 0 =
      exState1.tokenToTargetAddress 0 ∧
    (runOps exState1 [Op.updateOp 2 0 "water"]).tokenAuras 0 =
      (tierWrites exState1 0 [Op.updateOp 2 0 "water"]).getLastD (exState1.tokenAuras 0) :=
  token_immutable_target_and_latest_tier exState1 0 [Op.updateOp 2 0 "water"] (by decide)

/-- C7: the tier classifier checks thresholds from the highest down with
the first match winning: at least 500 transactions give fire, at least 100
give water, at least 10 give tide, at least 1 gives rock, and zero gives
none; the boundary values behave accordingly. -/
theorem getAuraType_thresholds :
    (∀ n, 500 ≤ n → getAuraType n = some "fire") ∧
    (∀ n, 100 ≤ n → n < 500 → getAuraType n = some "water") ∧
    (∀ n, 10 ≤ n → n < 100 → getAuraType n = some "tide") ∧
    (∀ n, 1 ≤ n → n < 10 → getAuraType n = some "rock") ∧
    getAuraType 0 = none ∧
    getAuraType 1 = some "rock" ∧ getAuraType 9 = some "rock" ∧
    getAuraType 10 = some "tide" ∧ getAuraType 99 = some "tide" ∧
    getAuraType 100 = some "water" ∧ getAuraType 499 = some "water" ∧
    getAuraType 500 = some "fire" := by
  refine ⟨?_, ?_, ?_, ?_, ?_, ?_, ?_, ?_, ?_, ?_, ?_, ?_⟩
  · intro n h
    unfold getAuraType
    rw [if_pos h]
  · intro n h1 h2
    unfold getAuraType
    rw [if_neg (by omega), if_pos h1]
  · intro n h1 h2
    unfold getAuraType
    rw [if_neg (by omega), if_neg (by omega), if_pos h1]
  · intro n h1 h2
    unfold getAuraType
    rw [if_neg (by omega), if_neg (by omega), if_neg (by omega), if_pos h1]
  all_goals decide

theorem getAuraType_thresholds_witness :
    getAuraType 600 = some "fire" ∧ getAuraType 250 = some "water" ∧
    getAuraType 50 = some "tide" ∧ getAuraType 5 = some "rock" :=
  ⟨getAuraType_thresholds.1 600 (by decide),
   getAuraType_thresholds.2.1 250 (by decide) (by decide),
   getAuraType_thresholds.2.2.1 50 (by decide) (by decide),
   getAuraType_thresholds.2.2.2.1 5 (by decide) (by decide)⟩

theorem toHexChars_length (k v : Nat) : (toHexChars k v).length = k := by
  induction k generalizing v with
  | zero => rfl
  | succ k ih => simp [toHexChars, ih]

/-- C8: the image reference of the rendered document is the image base
followed by the stored tier label and ".png", and the target address is
rendered 0x-tagged, zero-padded to 40 lowercase hexadecimal digits; on the
concrete token of exState1 (id 0, label "fire", target address 1, image
base "https://x/") the rendered JSON carries image value
https://x/fire.png and the Target Address attribute value
0x0000000000000000000000000000000000000001. -/
theorem tokenURI_image_concat_and_address_rendering :
    (∀ s t, tokenURI_json s t =
       tokenURI_jsonHead s t ++ (s.baseImageURI ++ s.tokenAuras t ++ ".png") ++
       tokenURI_jsonTail s t) ∧
    (∀ a : Address, ∃ l, toHexString (a % 2 ^ 160) 20 = "0x" ++ String.mk l ∧
       l.length = 40) ∧
    toHexString 1 20 = "0x0000000000000000000000000000000000000001" ∧
    tokenURI_json exState1 0 =
      tokenURI_jsonHead exState1 0 ++ "https://x/fire.png" ++ tokenURI_jsonTail exState1 0 ∧
    ("\"image\": \"https://x/fire.png\"").toList <:+: (tokenURI_json exState1 0).toList ∧
    ("\x7b\"trait_type\": \"Target Address\", \"value\": \"0x0000000000000000000000000000000000000001\"\x7d").toList
      <:+: (tokenURI_json exState1 0).toList := by
  refine ⟨fun s t => rfl, ?_, by decide, rfl, by decide, by decide⟩
  intro a
  exact ⟨toHexChars 40 (a % 2 ^ 160), rfl, toHexChars_length 40 _⟩

/-- C9 (counterexample): for a label outside the valid set the renderer
description is the placeholder "Base Aura NFT", not "Unknown". -/
theorem metadata_unknown_description_cex :
    _getAuraDescription "plasma" = "Base Aura NFT" ∧
    ¬ _getAuraDescription "plasma" = "Unknown" :=
  ⟨rfl, by decide⟩

/-- C9 (amended): for every label outside the valid set the renderer does
not fail: the human-readable name degrades to "Unknown", the rarity-tier
attribute degrades to "Unknown", the description degrades to the
placeholder "Base Aura NFT", and rendering metadata of an existing token
always succeeds whatever the stored label. -/
theorem metadata_unknown_degrades (aura : String)
    (h1 : aura ≠ FIRE_WHALE) (h2 : aura ≠ WAVE_RIDER)
    (h3 : aura ≠ TIDE_WATCHER) (h4 : aura ≠ ROCK_HOLDER) :
    _getAuraName aura = "Unknown" ∧
    _getAuraTier aura = "Unknown" ∧
    _getAuraDescription aura = "Base Aura NFT" ∧
    (∀ s t, t < s.nextTokenId → ∃ d, tokenURI s t = .ok d) := by
  refine ⟨?_, ?_, ?_, ?_⟩
  · simp [_getAuraName, h1, h2, h3, h4]
  · simp [_getAuraTier, h1, h2, h3, h4]
  · simp [_getAuraDescription, h1, h2, h3, h4]
  · intro s t ht
    refine ⟨"data:application/json;base64," ++ base64Encode (tokenURI_json s t), ?_⟩
    simp [tokenURI, ht]

theorem metadata_unknown_degrades_witness :
    _getAuraName "plasma" = "Unknown" ∧
    _getAuraTier "plasma" = "Unknown" ∧
    _getAuraDescription "plasma" = "Base Aura NFT" ∧
    (∀ s t, t < s.nextTokenId → ∃ d, tokenURI s t = .ok d) :=
  metadata_unknown_degrades "plasma" (by decide) (by decide) (by decide) (by decide)

/-- C10: a successful setBaseImageURI call comes from the administrator
and replaces only the image base: every token-level storage slot is
untouched, and the JSON rendered afterwards for any token keeps its name,
description and attribute segments while its image value is built from
the new base, so the change is retroactive and the base is not
snapshotted per token at mint time. -/
theorem setBaseImageURI_retroactive (s : State) (caller : Address) (newBase : String)
    (s' : State) (h : setBaseImageURI s caller newBase = .ok s') :
    caller = s.contractOwner ∧
    s'.baseImageURI = newBase ∧
    s'.nextTokenId = s.nextTokenId ∧
    s'.tokenAuras = s.tokenAuras ∧
    s'.tokenToTargetAddress = s.tokenToTargetAddress ∧
    s'.targetAddressToTokenId = s.targetAddressToTokenId ∧
    s'.targetAddressMinted = s.targetAddressMinted ∧
    s'.owners = s.owners ∧
    (∀ t, tokenURI_jsonHead s' t = tokenURI_jsonHead s t ∧
          tokenURI_jsonTail s' t = tokenURI_jsonTail s t ∧
          tokenURI_json s' t =
            tokenURI_jsonHead s t ++ (newBase ++ s.tokenAuras t ++ ".png") ++
            tokenURI_jsonTail s t) := by
  unfold setBaseImageURI at h
  split_ifs at h with hc
  cases h
  exact ⟨hc, rfl, rfl, rfl, rfl, rfl, rfl, rfl, fun t => ⟨rfl, rfl, rfl⟩⟩

theorem setBaseImageURI_retroactive_witness :
    1 = exState1.contractOwner ∧
    exState2.baseImageURI = "https://y/" ∧
    exState2.nextTokenId = exState1.nextTokenId ∧
    exState2.tokenAuras = exState1.tokenAuras ∧
    exState2.tokenToTargetAddress = exState1.tokenToTargetAddress ∧
    exState2.targetAddressToTokenId = exState1.targetAddressToTokenId ∧
    exState2.targetAddressMinted = exState1.targetAddressMinted ∧
    exState2.owners = exState1.owners ∧
    (∀ t, tokenURI_jsonHead exState2 t = tokenURI_jsonHead exState1 t ∧
          tokenURI_jsonTail exState2 t = tokenURI_jsonTail exState1 t ∧
          tokenURI_json exState2 t =
            tokenURI_jsonHead exState1 t ++
            ("https://y/" ++ exState1.tokenAuras t ++ ".png") ++
            tokenURI_jsonTail exState1 t) :=
  setBaseImageURI_retroactive exState1 1 "https://y/" exState2 rfl
